import Mathlib

/-!
Verification development for the print-sheet composition engine of
`print_photos.py` (util-scripts repository).

The Python code computes scales and areas with real-number division; we embed
that arithmetic exactly with `ℚ`. Pixel dimensions and coordinates are `ℕ`.
`int(x)` on the nonnegative values arising here is truncation, embedded as
`Int.toNat ∘ Int.floor`. A decode attempt on an input file is embedded as an
`Option ImgDims`: `none` is a decode failure, `some d` a successfully decoded
image of pixel dimensions `d` (the enhancement pass does not change pixel
dimensions, so only dimensions are tracked).
-/

/-- Constant `OUTPUT_WIDTH_PX = 6 * DPI` with `DPI = 300` (print_photos.py line 17). -/
def OUTPUT_WIDTH_PX : ℕ := 6 * 300

/-- Constant `OUTPUT_HEIGHT_PX = 4 * DPI` with `DPI = 300` (print_photos.py line 18). -/
def OUTPUT_HEIGHT_PX : ℕ := 4 * 300

/-- Python `int()` applied to a nonnegative real value: truncation to ℕ. -/
def natTrunc (q : ℚ) : ℕ := (⌊q⌋).toNat

/-- Decoded image pixel dimensions. -/
structure ImgDims where
  w : ℕ
  h : ℕ
deriving DecidableEq

/-- Result of `fit_image_to_quad`: the resized dimensions and whether the
image was rotated 90° (print_photos.py lines 51-73). -/
structure FitResult where
  w : ℕ
  h : ℕ
  rotated : Bool
deriving DecidableEq

/-- Embeds `scale_normal = min(quad_width / img_w, quad_height / img_h)`
(print_photos.py line 58). -/
def scale_normal (imgW imgH quadW quadH : ℕ) : ℚ :=
  min ((quadW : ℚ) / (imgW : ℚ)) ((quadH : ℚ) / (imgH : ℚ))

/-- Embeds `scale_rotated = min(quad_width / img_h, quad_height / img_w)`
(print_photos.py line 59). -/
def scale_rotated (imgW imgH quadW quadH : ℕ) : ℚ :=
  min ((quadW : ℚ) / (imgH : ℚ)) ((quadH : ℚ) / (imgW : ℚ))

/-- Covered area of the unrotated candidate,
`(img_w * scale_normal) * (img_h * scale_normal)` (print_photos.py line 62). -/
def area_normal (imgW imgH quadW quadH : ℕ) : ℚ :=
  ((imgW : ℚ) * scale_normal imgW imgH quadW quadH) *
    ((imgH : ℚ) * scale_normal imgW imgH quadW quadH)

/-- Covered area of the rotated candidate,
`(img_h * scale_rotated) * (img_w * scale_rotated)` (print_photos.py line 62). -/
def area_rotated (imgW imgH quadW quadH : ℕ) : ℚ :=
  ((imgH : ℚ) * scale_rotated imgW imgH quadW quadH) *
    ((imgW : ℚ) * scale_rotated imgW imgH quadW quadH)

/-- Embeds `fit_image_to_quad` (print_photos.py lines 51-73). If the unrotated
covered area (line 62's product, `area_normal`) is at least the rotated one,
resize by `scale_normal` without rotation; otherwise rotate 90° with
expansion (PIL: the rotated image has size `(img_h, img_w)`), recompute the
scale for the rotated size — which equals `scale_rotated` — and resize. The
resized dimensions are `int()`-truncated as in the code. -/
def fit_image_to_quad (imgW imgH quadW quadH : ℕ) : FitResult :=
  if area_normal imgW imgH quadW quadH ≥ area_rotated imgW imgH quadW quadH then
    ⟨natTrunc ((imgW : ℚ) * scale_normal imgW imgH quadW quadH),
     natTrunc ((imgH : ℚ) * scale_normal imgW imgH quadW quadH), false⟩
  else
    ⟨natTrunc ((imgH : ℚ) * scale_rotated imgW imgH quadW quadH),
     natTrunc ((imgW : ℚ) * scale_rotated imgW imgH quadW quadH), true⟩

lemma scale_normal_nonneg (imgW imgH quadW quadH : ℕ) :
    0 ≤ scale_normal imgW imgH quadW quadH :=
  le_min (div_nonneg (Nat.cast_nonneg _) (Nat.cast_nonneg _))
    (div_nonneg (Nat.cast_nonneg _) (Nat.cast_nonneg _))

lemma scale_rotated_nonneg (imgW imgH quadW quadH : ℕ) :
    0 ≤ scale_rotated imgW imgH quadW quadH :=
  le_min (div_nonneg (Nat.cast_nonneg _) (Nat.cast_nonneg _))
    (div_nonneg (Nat.cast_nonneg _) (Nat.cast_nonneg _))

lemma natTrunc_le_of_le {q : ℚ} {n : ℕ} (h : q ≤ (n : ℚ)) : natTrunc q ≤ n := by
  unfold natTrunc
  have h1 : ⌊q⌋ ≤ ⌊((n : ℚ))⌋ := Int.floor_le_floor h
  rw [Int.floor_natCast] at h1
  exact Int.toNat_le.mpr h1

lemma mul_scale_le {a q : ℕ} {s : ℚ} (ha : 0 < a) (hs : s ≤ (q : ℚ) / (a : ℚ)) :
    (a : ℚ) * s ≤ (q : ℚ) := by
  have hac : (0 : ℚ) < (a : ℚ) := by exact_mod_cast ha
  rw [le_div_iff₀ hac] at hs
  linarith [hs]

lemma fit_image_bounds (imgW imgH quadW quadH : ℕ)
    (hiw : 0 < imgW) (hih : 0 < imgH) :
    (fit_image_to_quad imgW imgH quadW quadH).w ≤ quadW ∧
    (fit_image_to_quad imgW imgH quadW quadH).h ≤ quadH := by
  by_cases hc : area_normal imgW imgH quadW quadH ≥ area_rotated imgW imgH quadW quadH
  · have hfit : fit_image_to_quad imgW imgH quadW quadH =
        ⟨natTrunc ((imgW : ℚ) * scale_normal imgW imgH quadW quadH),
         natTrunc ((imgH : ℚ) * scale_normal imgW imgH quadW quadH), false⟩ := by
      unfold fit_image_to_quad; rw [if_pos hc]
    rw [hfit]
    exact ⟨natTrunc_le_of_le (mul_scale_le hiw (min_le_left _ _)),
      natTrunc_le_of_le (mul_scale_le hih (min_le_right _ _))⟩
  · have hfit : fit_image_to_quad imgW imgH quadW quadH =
        ⟨natTrunc ((imgH : ℚ) * scale_rotated imgW imgH quadW quadH),
         natTrunc ((imgW : ℚ) * scale_rotated imgW imgH quadW quadH), true⟩ := by
      unfold fit_image_to_quad; rw [if_neg hc]
    rw [hfit]
    exact ⟨natTrunc_le_of_le (mul_scale_le hih (min_le_left _ _)),
      natTrunc_le_of_le (mul_scale_le hiw (min_le_right _ _))⟩

/-- C1: for positive image and region dimensions, the fitted output fits
inside the region (`output_w ≤ region_w`, `output_h ≤ region_h`), and both
output dimensions are the truncation of the chosen orientation's (possibly
swapped) source dimensions multiplied by one common nonnegative scale, so the
chosen orientation's aspect ratio is preserved up to integer truncation. -/
theorem fit_image_to_quad_fits (imgW imgH quadW quadH : ℕ)
    (hiw : 0 < imgW) (hih : 0 < imgH) (hqw : 0 < quadW) (hqh : 0 < quadH) :
    (fit_image_to_quad imgW imgH quadW quadH).w ≤ quadW ∧
    (fit_image_to_quad imgW imgH quadW quadH).h ≤ quadH ∧
    ∃ s : ℚ, 0 ≤ s ∧
      (fit_image_to_quad imgW imgH quadW quadH).w =
        natTrunc ((if (fit_image_to_quad imgW imgH quadW quadH).rotated
          then (imgH : ℚ) else (imgW : ℚ)) * s) ∧
      (fit_image_to_quad imgW imgH quadW quadH).h =
        natTrunc ((if (fit_image_to_quad imgW imgH quadW quadH).rotated
          then (imgW : ℚ) else (imgH : ℚ)) * s) := by
  by_cases hc : area_normal imgW imgH quadW quadH ≥ area_rotated imgW imgH quadW quadH
  · have hfit : fit_image_to_quad imgW imgH quadW quadH =
        ⟨natTrunc ((imgW : ℚ) * scale_normal imgW imgH quadW quadH),
         natTrunc ((imgH : ℚ) * scale_normal imgW imgH quadW quadH), false⟩ := by
      unfold fit_image_to_quad; rw [if_pos hc]
    rw [hfit]
    exact ⟨natTrunc_le_of_le (mul_scale_le hiw (min_le_left _ _)),
      natTrunc_le_of_le (mul_scale_le hih (min_le_right _ _)),
      scale_normal imgW imgH quadW quadH,
      scale_normal_nonneg imgW imgH quadW quadH, rfl, rfl⟩
  · have hfit : fit_image_to_quad imgW imgH quadW quadH =
        ⟨natTrunc ((imgH : ℚ) * scale_rotated imgW imgH quadW quadH),
         natTrunc ((imgW : ℚ) * scale_rotated imgW imgH quadW quadH), true⟩ := by
      unfold fit_image_to_quad; rw [if_neg hc]
    rw [hfit]
    exact ⟨natTrunc_le_of_le (mul_scale_le hih (min_le_left _ _)),
      natTrunc_le_of_le (mul_scale_le hiw (min_le_right _ _)),
      scale_rotated imgW imgH quadW quadH,
      scale_rotated_nonneg imgW imgH quadW quadH, rfl, rfl⟩

/-- C1 witness: the bounds at the concrete input 3000×2000 into 900×1200. -/
theorem fit_image_to_quad_fits_witness :
    0 < 3000 ∧ (fit_image_to_quad 3000 2000 900 1200).w ≤ 900 ∧
    (fit_image_to_quad 3000 2000 900 1200).h ≤ 1200 := by
  have h := fit_image_to_quad_fits 3000 2000 900 1200
    (by decide) (by decide) (by decide) (by decide)
  exact ⟨by decide, h.1, h.2.1⟩

/-- C2: the fitter keeps the original orientation exactly when
`area_normal ≥ area_rotated`; in particular an exact area tie resolves to no
rotation, and it rotates exactly when the rotated area strictly wins. -/
theorem fit_rotation_rule (imgW imgH quadW quadH : ℕ) :
    ((fit_image_to_quad imgW imgH quadW quadH).rotated = false ↔
      area_rotated imgW imgH quadW quadH ≤ area_normal imgW imgH quadW quadH) ∧
    (area_normal imgW imgH quadW quadH = area_rotated imgW imgH quadW quadH →
      (fit_image_to_quad imgW imgH quadW quadH).rotated = false) ∧
    ((fit_image_to_quad imgW imgH quadW quadH).rotated = true ↔
      area_normal imgW imgH quadW quadH < area_rotated imgW imgH quadW quadH) := by
  by_cases hc : area_normal imgW imgH quadW quadH ≥ area_rotated imgW imgH quadW quadH
  · have hfit : fit_image_to_quad imgW imgH quadW quadH =
        ⟨natTrunc ((imgW : ℚ) * scale_normal imgW imgH quadW quadH),
         natTrunc ((imgH : ℚ) * scale_normal imgW imgH quadW quadH), false⟩ := by
      unfold fit_image_to_quad; rw [if_pos hc]
    rw [hfit]
    exact ⟨iff_of_true rfl hc, fun _ => rfl,
      iff_of_false (fun h => nomatch h) (not_lt.mpr hc)⟩
  · have hlt : area_normal imgW imgH quadW quadH <
        area_rotated imgW imgH quadW quadH := lt_of_not_ge hc
    have hfit : fit_image_to_quad imgW imgH quadW quadH =
        ⟨natTrunc ((imgH : ℚ) * scale_rotated imgW imgH quadW quadH),
         natTrunc ((imgW : ℚ) * scale_rotated imgW imgH quadW quadH), true⟩ := by
      unfold fit_image_to_quad; rw [if_neg hc]
    rw [hfit]
    exact ⟨iff_of_false (fun h => nomatch h) (not_le.mpr hlt),
      fun h => absurd h.ge hc, iff_of_true rfl hlt⟩

/-- C4: For a 3000×2000 image fitted into a 900×1200 region, the rotated
orientation is chosen (rotated covered area 960000 strictly exceeds the
normal covered area 540000) and the output dimensions are exactly 800×1200. -/
theorem fit_3000x2000_into_900x1200 :
    fit_image_to_quad 3000 2000 900 1200 = ⟨800, 1200, true⟩ ∧
    area_rotated 3000 2000 900 1200 = 960000 ∧
    area_normal 3000 2000 900 1200 = 540000 ∧
    area_normal 3000 2000 900 1200 < area_rotated 3000 2000 900 1200 := by
  have hN : scale_normal 3000 2000 900 1200 = 3/10 := by
    unfold scale_normal; norm_num [min_def]
  have hR : scale_rotated 3000 2000 900 1200 = 2/5 := by
    unfold scale_rotated; norm_num [min_def]
  have haN : area_normal 3000 2000 900 1200 = 540000 := by
    unfold area_normal; rw [hN]; norm_num
  have haR : area_rotated 3000 2000 900 1200 = 960000 := by
    unfold area_rotated; rw [hR]; norm_num
  refine ⟨?_, haR, haN, by rw [haN, haR]; norm_num⟩
  unfold fit_image_to_quad
  rw [if_neg (by rw [haN, haR]; norm_num), hR]
  norm_num [natTrunc]
  decide

/-- The two competing partitions tried by `create_1x2_sheet`
(print_photos.py lines 167-185): `oneByTwo` is the horizontal split (two
full-width, half-height stacked regions, the string "1x2" in the code) and
`twoByOne` the vertical split (two half-width, full-height side-by-side
regions, the string "2x1"). -/
inductive Layout where
  | oneByTwo
  | twoByOne
deriving DecidableEq

/-- Region width for a layout (print_photos.py lines 219-224 and 174, 181). -/
def layout_quad_width : Layout → ℕ
  | .oneByTwo => OUTPUT_WIDTH_PX
  | .twoByOne => OUTPUT_WIDTH_PX / 2

/-- Region height for a layout (print_photos.py lines 219-224 and 175, 182). -/
def layout_quad_height : Layout → ℕ
  | .oneByTwo => OUTPUT_HEIGHT_PX / 2
  | .twoByOne => OUTPUT_HEIGHT_PX

/-- Region origins for a layout (print_photos.py lines 176, 183). -/
def layout_positions : Layout → List (ℕ × ℕ)
  | .oneByTwo => [(0, 0), (0, OUTPUT_HEIGHT_PX / 2)]
  | .twoByOne => [(0, 0), (OUTPUT_WIDTH_PX / 2, 0)]

/-- Embeds `_calculate_layout_area` (print_photos.py lines 217-240): over the first
two images, sum the larger of the two orientation covered areas against the
layout's region size, then truncate the total with `int()`. -/
def calculate_layout_area (imgs : List ImgDims) (l : Layout) : ℤ :=
  ⌊((imgs.take 2).map (fun d =>
      max (area_normal d.w d.h (layout_quad_width l) (layout_quad_height l))
        (area_rotated d.w d.h (layout_quad_width l) (layout_quad_height l)))).sum⌋

/-- The partition choice of `create_1x2_sheet` (print_photos.py line 172):
the vertical split "2x1" is taken only when its total area strictly exceeds
the "1x2" total, else the horizontal split "1x2". -/
def choose_layout (imgs : List ImgDims) : Layout :=
  if calculate_layout_area imgs .twoByOne > calculate_layout_area imgs .oneByTwo
  then .twoByOne else .oneByTwo

/-- C3: when the two partitions' summed best-fit covered areas are exactly
equal, the selection resolves to the horizontal partition `oneByTwo` (the
baseline evaluated first in the code), whose two regions are full-width,
half-height stacked halves of the canvas. -/
theorem layout_tie_resolves_horizontal (imgs : List ImgDims)
    (h : calculate_layout_area imgs .twoByOne = calculate_layout_area imgs .oneByTwo) :
    choose_layout imgs = .oneByTwo ∧
    layout_quad_width .oneByTwo = OUTPUT_WIDTH_PX ∧
    layout_quad_height .oneByTwo = OUTPUT_HEIGHT_PX / 2 ∧
    layout_positions .oneByTwo = [(0, 0), (0, OUTPUT_HEIGHT_PX / 2)] := by
  refine ⟨?_, rfl, rfl, rfl⟩
  unfold choose_layout
  rw [if_neg]
  rw [h]
  exact lt_irrefl _

/-- C3 witness: two images of identical dimensions 2×1 give exactly equal
totals (1440000 for each partition), and the horizontal partition is chosen. -/
theorem layout_tie_resolves_horizontal_witness :
    calculate_layout_area [⟨2, 1⟩, ⟨2, 1⟩] .twoByOne =
      calculate_layout_area [⟨2, 1⟩, ⟨2, 1⟩] .oneByTwo ∧
    choose_layout [⟨2, 1⟩, ⟨2, 1⟩] = .oneByTwo := by
  have h1 : calculate_layout_area [⟨2, 1⟩, ⟨2, 1⟩] .twoByOne = 1440000 := by
    norm_num [calculate_layout_area, layout_quad_width, layout_quad_height,
      OUTPUT_WIDTH_PX, OUTPUT_HEIGHT_PX, area_normal, area_rotated,
      scale_normal, scale_rotated, min_def, max_def]
  have h2 : calculate_layout_area [⟨2, 1⟩, ⟨2, 1⟩] .oneByTwo = 1440000 := by
    norm_num [calculate_layout_area, layout_quad_width, layout_quad_height,
      OUTPUT_WIDTH_PX, OUTPUT_HEIGHT_PX, area_normal, area_rotated,
      scale_normal, scale_rotated, min_def, max_def]
  have heq := h1.trans h2.symm
  exact ⟨heq, (layout_tie_resolves_horizontal [⟨2, 1⟩, ⟨2, 1⟩] heq).1⟩

/-- One paste operation prepared by a compositor: the assigned region
`(quadX, quadY, quadW, quadH)`, the top-left paste coordinates computed by the
centering logic (print_photos.py lines 113-115, 160-161, 199-201), and the
fitted image dimensions. -/
structure Paste where
  quadX : ℕ
  quadY : ℕ
  quadW : ℕ
  quadH : ℕ
  pasteX : ℕ
  pasteY : ℕ
  w : ℕ
  h : ℕ
deriving DecidableEq

/-- Fit an image into the region at `(quadX, quadY)` of size
`quadW × quadH` and center it there:
`paste_x = quad_x + (quad_width - new_w) // 2` and likewise for y
(print_photos.py lines 108-117 and 194-203). -/
def mkPaste (quadX quadY quadW quadH : ℕ) (img : ImgDims) : Paste :=
  ⟨quadX, quadY, quadW, quadH,
   quadX + (quadW - (fit_image_to_quad img.w img.h quadW quadH).w) / 2,
   quadY + (quadH - (fit_image_to_quad img.w img.h quadW quadH).h) / 2,
   (fit_image_to_quad img.w img.h quadW quadH).w,
   (fit_image_to_quad img.w img.h quadW quadH).h⟩

/-- Embeds `create_1x2_sheet` (print_photos.py lines 131-215), the `optimized2`
compositor, on the decode results of its input chunk. The result is the list
of pastes performed on the saved sheet, or `none` when the function returns
`False` before creating or saving any sheet (line 149-150: no decodable image
among the first two inputs). With exactly one decodable image the full canvas
is the single region (lines 152-165); with two, the layout chosen by the area
comparison provides the regions (lines 166-205). -/
def create_1x2_sheet (inputs : List (Option ImgDims)) : Option (List Paste) :=
  match (inputs.take 2).filterMap id with
  | [] => none
  | [img] => some [mkPaste 0 0 OUTPUT_WIDTH_PX OUTPUT_HEIGHT_PX img]
  | imgs =>
      some ((imgs.take 2).enum.map (fun p =>
        mkPaste ((layout_positions (choose_layout imgs)).getD p.1 (0, 0)).1
          ((layout_positions (choose_layout imgs)).getD p.1 (0, 0)).2
          (layout_quad_width (choose_layout imgs))
          (layout_quad_height (choose_layout imgs)) p.2))

/-- C5: in `optimized2` mode, when none of the (up to two) considered inputs
decodes, `create_1x2_sheet` fails: `False` is returned before any canvas is
created, so no sheet is written to the output path. -/
theorem create_1x2_zero_decodable (inputs : List (Option ImgDims))
    (h : (inputs.take 2).filterMap id = []) :
    create_1x2_sheet inputs = none := by
  unfold create_1x2_sheet
  rw [h]

/-- C5 witness: a chunk of two undecodable files produces no sheet. -/
theorem create_1x2_zero_decodable_witness :
    (([none, none] : List (Option ImgDims)).take 2).filterMap id = [] ∧
    create_1x2_sheet [none, none] = none :=
  ⟨rfl, create_1x2_zero_decodable [none, none] rfl⟩

/-- C6: in `optimized2` mode with exactly one decodable image, partition
selection is skipped: the single image is fitted against the full canvas
(1800×1200) and pasted centered on the whole sheet. -/
theorem create_1x2_single_full_canvas (inputs : List (Option ImgDims)) (img : ImgDims)
    (h : (inputs.take 2).filterMap id = [img]) :
    create_1x2_sheet inputs = some [mkPaste 0 0 OUTPUT_WIDTH_PX OUTPUT_HEIGHT_PX img] ∧
    (mkPaste 0 0 OUTPUT_WIDTH_PX OUTPUT_HEIGHT_PX img).quadX = 0 ∧
    (mkPaste 0 0 OUTPUT_WIDTH_PX OUTPUT_HEIGHT_PX img).quadY = 0 ∧
    (mkPaste 0 0 OUTPUT_WIDTH_PX OUTPUT_HEIGHT_PX img).quadW = 1800 ∧
    (mkPaste 0 0 OUTPUT_WIDTH_PX OUTPUT_HEIGHT_PX img).quadH = 1200 ∧
    (mkPaste 0 0 OUTPUT_WIDTH_PX OUTPUT_HEIGHT_PX img).pasteX =
      (1800 - (fit_image_to_quad img.w img.h 1800 1200).w) / 2 ∧
    (mkPaste 0 0 OUTPUT_WIDTH_PX OUTPUT_HEIGHT_PX img).pasteY =
      (1200 - (fit_image_to_quad img.w img.h 1800 1200).h) / 2 := by
  refine ⟨?_, rfl, rfl, rfl, rfl, ?_, ?_⟩
  · unfold create_1x2_sheet
    rw [h]
  · show 0 + (1800 - (fit_image_to_quad img.w img.h 1800 1200).w) / 2 = _
    omega
  · show 0 + (1200 - (fit_image_to_quad img.w img.h 1800 1200).h) / 2 = _
    omega

/-- C6 witness: one decode failure and one 30×20 decodable image produce the
full-canvas single placement. -/
theorem create_1x2_single_full_canvas_witness :
    ((([none, some ⟨30, 20⟩] : List (Option ImgDims))).take 2).filterMap id = [⟨30, 20⟩] ∧
    create_1x2_sheet [none, some ⟨30, 20⟩] =
      some [mkPaste 0 0 OUTPUT_WIDTH_PX OUTPUT_HEIGHT_PX ⟨30, 20⟩] :=
  ⟨rfl, (create_1x2_single_full_canvas [none, some ⟨30, 20⟩] ⟨30, 20⟩ rfl).1⟩

/-- The four quadrant origins of the 2×2 grid: top-left, top-right,
bottom-left, bottom-right (print_photos.py lines 87-92). -/
def positions_2x2 : List (ℕ × ℕ) :=
  [(0, 0), (OUTPUT_WIDTH_PX / 2, 0), (0, OUTPUT_HEIGHT_PX / 2),
   (OUTPUT_WIDTH_PX / 2, OUTPUT_HEIGHT_PX / 2)]

/-- Outcome of `create_2x2_sheet`: the returned boolean and the pastes
performed on the saved sheet, each tagged with its quadrant index. -/
structure Sheet2x2 where
  success : Bool
  pastes : List (ℕ × Paste)
deriving DecidableEq

/-- The pastes performed by `create_2x2_sheet` (print_photos.py lines
94-117): inputs are walked in order with their input index `i`, stopping
after four; a decode failure is skipped with `continue`, leaving quadrant `i`
untouched; a decoded image is fitted to the half-width × half-height quadrant
and pasted centered at `positions[i]`. -/
def pastes_2x2 (inputs : List (Option ImgDims)) : List (ℕ × Paste) :=
  (inputs.take 4).enum.filterMap (fun p =>
    Option.map (fun img =>
      (p.1, mkPaste (positions_2x2.getD p.1 (0, 0)).1 (positions_2x2.getD p.1 (0, 0)).2
        (OUTPUT_WIDTH_PX / 2) (OUTPUT_HEIGHT_PX / 2) img)) p.2)

/-- Embeds `create_2x2_sheet` (print_photos.py lines 75-129), the `grid4`
compositor, on the decode results of its input chunk. The blank white canvas
is always created, every decodable input among the first four is pasted, the
sheet is always saved, and `True` is returned: there is no zero-decodable
failure path (the `except` at lines 126-129 concerns I/O errors, outside
this model). -/
def create_2x2_sheet (inputs : List (Option ImgDims)) : Sheet2x2 :=
  ⟨true, pastes_2x2 inputs⟩

/-- C7: a `grid4` chunk of four files of which exactly two decode still
succeeds, and the saved sheet has pastes in exactly the two quadrants whose
input-order positions hold the decodable files; the other two quadrants
receive no paste. -/
theorem create_2x2_two_decodable (a b c d : Option ImgDims)
    (hdec : (List.filterMap id [a, b, c, d]).length = 2) :
    (create_2x2_sheet [a, b, c, d]).success = true ∧
    (create_2x2_sheet [a, b, c, d]).pastes.length = 2 ∧
    ∀ i, i < 4 →
      (((create_2x2_sheet [a, b, c, d]).pastes.map Prod.fst).contains i =
        (List.getD [a, b, c, d] i none).isSome) := by
  refine ⟨rfl, ?_, ?_⟩
  · cases a <;> cases b <;> cases c <;> cases d <;>
      simp_all [create_2x2_sheet, pastes_2x2, List.enum, List.enumFrom]
  · intro i hi
    interval_cases i <;>
      cases a <;> cases b <;> cases c <;> cases d <;>
        simp_all [create_2x2_sheet, pastes_2x2, List.enum, List.enumFrom]

/-- C7 witness: files at input positions 0 and 2 decode, positions 1 and 3
fail; the sheet succeeds with pastes exactly in quadrants 0 and 2. -/
theorem create_2x2_two_decodable_witness :
    (List.filterMap id [some (⟨30, 20⟩ : ImgDims), none, some ⟨40, 50⟩, none]).length = 2 ∧
    (create_2x2_sheet [some ⟨30, 20⟩, none, some ⟨40, 50⟩, none]).success = true ∧
    ((create_2x2_sheet [some ⟨30, 20⟩, none, some ⟨40, 50⟩, none]).pastes.map Prod.fst).contains 0 = true ∧
    ((create_2x2_sheet [some ⟨30, 20⟩, none, some ⟨40, 50⟩, none]).pastes.map Prod.fst).contains 1 = false := by
  have h := create_2x2_two_decodable (some ⟨30, 20⟩) none (some ⟨40, 50⟩) none rfl
  refine ⟨rfl, h.1, ?_, ?_⟩
  · have h0 := h.2.2 0 (by decide)
    rw [h0]
    rfl
  · have h1 := h.2.2 1 (by decide)
    rw [h1]
    rfl

lemma filterMap_enumFrom_all_none {α : Type} (g : ℕ → ImgDims → α) (n : ℕ)
    (l : List (Option ImgDims)) (h : ∀ x ∈ l, x = none) :
    (List.enumFrom n l).filterMap (fun p => Option.map (g p.1) p.2) = [] := by
  induction l generalizing n with
  | nil => rfl
  | cons a l ih =>
    have ha : a = none := h a (List.mem_cons_self a l)
    subst ha
    simp only [List.enumFrom, List.filterMap_cons, Option.map_none']
    exact ih (n + 1) (fun x hx => h x (List.mem_cons_of_mem _ hx))

/-- A sheet's pixel content as a map from coordinates to the index of the
paste that last covered that pixel, `none` being the untouched background
(the solid white the canvas is initialized with, print_photos.py line 82).
PIL `sheet.paste(img, (x, y))` writes exactly the `w × h` rectangle with
top-left corner `(x, y)` and leaves every other pixel unchanged. -/
def applyPaste (sheet : ℕ → ℕ → Option ℕ) (idx px py w h : ℕ) : ℕ → ℕ → Option ℕ :=
  fun x y => if px ≤ x ∧ x < px + w ∧ py ≤ y ∧ y < py + h then some idx else sheet x y

/-- The blank canvas: background color everywhere. -/
def blankSheet : ℕ → ℕ → Option ℕ := fun _ _ => none

/-- Successive pastes applied to the blank canvas, in list order. -/
def renderPastes (ps : List (ℕ × Paste)) : ℕ → ℕ → Option ℕ :=
  ps.foldl (fun sheet q => applyPaste sheet q.1 q.2.pasteX q.2.pasteY q.2.w q.2.h)
    blankSheet

/-- C9: in `grid4` mode a chunk with zero decodable images — an empty chunk
included — still yields success: the sheet is saved with no pastes at all,
every pixel left solid background. `create_2x2_sheet` has no counterpart of
the zero-usable-images failure of `optimized2`. -/
theorem create_2x2_zero_decodable (inputs : List (Option ImgDims))
    (h : ∀ x ∈ inputs, x = none) :
    (create_2x2_sheet inputs).success = true ∧
    (create_2x2_sheet inputs).pastes = [] ∧
    ∀ x y, renderPastes (create_2x2_sheet inputs).pastes x y = none := by
  have hp : pastes_2x2 inputs = [] := by
    unfold pastes_2x2
    unfold List.enum
    exact filterMap_enumFrom_all_none
      (fun n img =>
        ((n, mkPaste (positions_2x2.getD n (0, 0)).1 (positions_2x2.getD n (0, 0)).2
          (OUTPUT_WIDTH_PX / 2) (OUTPUT_HEIGHT_PX / 2) img) : ℕ × Paste)) 0 _
      (fun x hx => h x (List.take_subset 4 inputs hx))
  refine ⟨rfl, hp, ?_⟩
  intro x y
  show renderPastes (pastes_2x2 inputs) x y = none
  rw [hp]
  rfl

/-- C9 witness: a full chunk of four undecodable files, and the empty chunk,
both give a successful all-background sheet. -/
theorem create_2x2_zero_decodable_witness :
    (create_2x2_sheet [none, none, none, none]).success = true ∧
    (create_2x2_sheet [none, none, none, none]).pastes = [] ∧
    (create_2x2_sheet []).success = true ∧
    (create_2x2_sheet []).pastes = [] := by
  have h4 := create_2x2_zero_decodable [none, none, none, none] (by decide)
  have h0 := create_2x2_zero_decodable [] (by simp)
  exact ⟨h4.1, h4.2.1, h0.1, h0.2.1⟩

/-- C10: the centering offsets keep every paste inside its assigned region:
the paste origin is at or after the region origin, origin plus fitted
dimension stays within the region's far edge, and therefore a paste changes
no pixel outside its assigned region — previously pasted regions included. -/
theorem paste_confined_to_region (img : ImgDims) (quadX quadY quadW quadH : ℕ)
    (hiw : 0 < img.w) (hih : 0 < img.h) (hqw : 0 < quadW) (hqh : 0 < quadH) :
    quadX ≤ (mkPaste quadX quadY quadW quadH img).pasteX ∧
    (mkPaste quadX quadY quadW quadH img).pasteX +
      (mkPaste quadX quadY quadW quadH img).w ≤ quadX + quadW ∧
    quadY ≤ (mkPaste quadX quadY quadW quadH img).pasteY ∧
    (mkPaste quadX quadY quadW quadH img).pasteY +
      (mkPaste quadX quadY quadW quadH img).h ≤ quadY + quadH ∧
    ∀ (sheet : ℕ → ℕ → Option ℕ) (idx x y : ℕ),
      (x < quadX ∨ quadX + quadW ≤ x ∨ y < quadY ∨ quadY + quadH ≤ y) →
      applyPaste sheet idx (mkPaste quadX quadY quadW quadH img).pasteX
        (mkPaste quadX quadY quadW quadH img).pasteY
        (mkPaste quadX quadY quadW quadH img).w
        (mkPaste quadX quadY quadW quadH img).h x y = sheet x y := by
  have hw := (fit_image_bounds img.w img.h quadW quadH hiw hih).1
  have hh := (fit_image_bounds img.w img.h quadW quadH hiw hih).2
  simp only [mkPaste]
  refine ⟨by omega, by omega, by omega, by omega, ?_⟩
  intro sheet idx x y hout
  unfold applyPaste
  rw [if_neg]
  omega

/-- C10 witness: pasting a 30×20 image into the top-right quadrant leaves a
pixel of the top-left quadrant untouched. -/
theorem paste_confined_to_region_witness :
    applyPaste blankSheet 5 (mkPaste 900 0 900 600 ⟨30, 20⟩).pasteX
      (mkPaste 900 0 900 600 ⟨30, 20⟩).pasteY (mkPaste 900 0 900 600 ⟨30, 20⟩).w
      (mkPaste 900 0 900 600 ⟨30, 20⟩).h 0 0 = blankSheet 0 0 :=
  (paste_confined_to_region ⟨30, 20⟩ 900 0 900 600 (by decide) (by decide)
    (by decide) (by decide)).2.2.2.2 blankSheet 5 0 0 (Or.inl (by decide))

/-- Embeds `num_sheets = math.ceil(len(files) / chunk_size)` (print_photos.py lines
286 and 306), as ceiling division on ℕ. -/
def num_sheets (n c : ℕ) : ℕ := (n + c - 1) / c

/-- The chunking loop of `process_folders` (print_photos.py lines 285-291 and
304-310): sheet `i` (for `i` below the ceiling count) receives the slice
`files[i*chunk_size : i*chunk_size + chunk_size]` of the caller-supplied
list. -/
def chunks {α : Type} (files : List α) (c : ℕ) : List (List α) :=
  (List.range (num_sheets files.length c)).map (fun i => (files.drop (i * c)).take c)

lemma num_sheets_zero {c : ℕ} (hc : 0 < c) : num_sheets 0 c = 0 := by
  unfold num_sheets
  exact Nat.div_eq_of_lt (by omega)

lemma num_sheets_succ {n c : ℕ} (hc : 0 < c) (hn : 0 < n) :
    num_sheets n c = num_sheets (n - c) c + 1 := by
  unfold num_sheets
  rcases le_or_lt c n with h | h
  · have e : n + c - 1 = (n - c + c - 1) + c := by omega
    rw [e, Nat.add_div_right _ hc]
  · have e1 : (n + c - 1) / c = 1 := Nat.div_eq_of_lt_le (by omega) (by omega)
    have e2 : n - c = 0 := by omega
    have e3 : (0 + c - 1) / c = 0 := Nat.div_eq_of_lt (by omega)
    rw [e1, e2, e3]

lemma chunks_cons {α : Type} {l : List α} {c : ℕ} (hc : 0 < c) (hl : l ≠ []) :
    chunks l c = l.take c :: chunks (l.drop c) c := by
  unfold chunks
  have hn : 0 < l.length := List.length_pos.mpr hl
  rw [List.length_drop, num_sheets_succ hc hn, List.range_succ_eq_map]
  simp only [List.map_cons, List.map_map]
  congr 1
  · simp
  · apply List.map_congr_left
    intro i hi
    simp only [Function.comp]
    rw [List.drop_drop]
    congr 2
    rw [Nat.succ_mul, Nat.mul_comm]
    exact Nat.add_comm _ _

lemma chunks_join {α : Type} (c : ℕ) (hc : 0 < c) (l : List α) :
    (chunks l c).flatten = l := by
  generalize hn : l.length = n
  induction n using Nat.strong_induction_on generalizing l with
  | _ n ih =>
    rcases eq_or_ne l [] with rfl | hl
    · unfold chunks
      rw [List.length_nil, num_sheets_zero hc]
      rfl
    · rw [chunks_cons hc hl, List.flatten_cons]
      have hpos : 0 < l.length := List.length_pos.mpr hl
      have hdrop : (l.drop c).length < n := by
        rw [List.length_drop]
        omega
      rw [ih _ hdrop (l.drop c) rfl]
      exact List.take_append_drop c l

/-- C8: for a positive chunk size, the scheduler produces exactly
`ceil(n / chunk_size)` chunks, chunk `i` is the consecutive slice
`files[i*chunk_size : i*chunk_size + chunk_size]`, and the chunks
concatenate back to the whole list in the caller-supplied order. -/
theorem process_folders_chunking {α : Type} (files : List α) (c : ℕ) (hc : 0 < c) :
    (chunks files c).length = num_sheets files.length c ∧
    (∀ i, i < num_sheets files.length c →
      (chunks files c)[i]? = some ((files.drop (i * c)).take c)) ∧
    (chunks files c).flatten = files := by
  refine ⟨by simp [chunks], ?_, chunks_join c hc files⟩
  intro i hi
  unfold chunks
  rw [List.getElem?_map, List.getElem?_range hi]
  rfl

/-- C8 witness: 5 files with chunk size 4 give exactly 2 chunks, of sizes 4
and 1, concatenating back to the file list; 0 files give 0 chunks and a zero
sheet count, with no failure. -/
theorem process_folders_chunking_witness :
    (0 : ℕ) < 4 ∧
    (chunks [0, 1, 2, 3, 4] 4).length = 2 ∧
    (chunks [0, 1, 2, 3, 4] 4).map List.length = [4, 1] ∧
    (chunks [0, 1, 2, 3, 4] 4).flatten = [0, 1, 2, 3, 4] ∧
    (chunks ([] : List ℕ) 4).length = 0 ∧ num_sheets 0 4 = 0 := by
  have h5 := process_folders_chunking [0, 1, 2, 3, 4] 4 (by decide)
  have h0 := process_folders_chunking ([] : List ℕ) 4 (by decide)
  refine ⟨by decide, ?_, by decide, h5.2.2, ?_, by decide⟩
  · rw [h5.1]
    decide
  · rw [h0.1]
    decide
